import Mathlib

/-!
Verification of the Orpheus-TTS streaming token-to-audio decoder
(`orpheus_tts_pypi/decoder.py`).

The embedding is shallow: the token parser `turn_token_into_id`, the codec
invoker `convert_to_audio` and the streaming scheduler `tokens_decoder` are
translated into executable Lean functions over `List Char` / `List Int`.
The external neural codec (the SNAC model, not part of this repository) is
modelled as an abstract function from the three codebook index lists to a
waveform, i.e. a list of samples; one list element stands for one audio
sample (two bytes of little-endian signed 16-bit PCM).
-/

set_option maxRecDepth 100000
set_option linter.unusedVariables false

namespace OrpheusTTS

/-- The literal `<custom_token_` searched for by the parser
(`_CUSTOM_TOKEN_PREFIX` in the source). -/
def CUSTOM_TOKEN_PRE : List Char :=
  ['<', 'c', 'u', 's', 't', 'o', 'm', '_', 't', 'o', 'k', 'e', 'n', '_']

/-- Python `s.startswith(pat)` on character lists. -/
def startsList (pat s : List Char) : Bool :=
  decide (s.take pat.length = pat)

/-- The code points Python's `str.strip()` removes: exactly the characters
`c` with `c.isspace()` true in CPython (Unicode 14). -/
def pyWhitespaceCodes : List Nat := [
  9, 10, 11, 12, 13, 28, 29, 30, 31, 32, 133, 160,
  5760, 8192, 8193, 8194, 8195, 8196, 8197, 8198, 8199, 8200, 8201, 8202,
  8232, 8233, 8239, 8287, 12288]

/-- Membership of a character in Python's whitespace set. -/
def pyWhitespaceChar (c : Char) : Bool := pyWhitespaceCodes.contains c.toNat

/-- The base code points of Unicode category `Nd` (decimal digits): each base
`b` starts a run `b .. b+9` of digits with decimal values 0..9; CPython's
`int()` accepts exactly these digit characters (Unicode 14). -/
def decimalBases : List Nat := [
  48, 1632, 1776, 1984, 2406, 2534, 2662, 2790, 2918, 3046, 3174, 3302,
  3430, 3558, 3664, 3792, 3872, 4160, 4240, 6112, 6160, 6470, 6608, 6784,
  6800, 6992, 7088, 7232, 7248, 42528, 43216, 43264, 43472, 43504, 43600, 44016,
  65296, 66720, 68912, 69734, 69872, 69942, 70096, 70384, 70736, 70864, 71248, 71360,
  71472, 71904, 72016, 72784, 73040, 73120, 92768, 92864, 93008, 120782, 120792, 120802,
  120812, 120822, 123200, 123632, 125264, 130032]

/-- Membership of a character in Unicode category `Nd`. -/
def pyIsDecimal (c : Char) : Bool :=
  decimalBases.any (fun b => decide (b ≤ c.toNat) && decide (c.toNat ≤ b + 9))

/-- The decimal value of an `Nd` character (0 for non-digits). -/
def pyDecimalVal (c : Char) : Nat :=
  match decimalBases.find? (fun b => decide (b ≤ c.toNat) && decide (c.toNat ≤ b + 9)) with
  | some b => c.toNat - b
  | none => 0

/-- The code points with `str.isdigit()` true that are not category `Nd`
(Numeric_Type = Digit): `int()` raises `ValueError` on these (Unicode 14). -/
def digitNotDecimalCodes : List Nat := [
  178, 179, 185, 4969, 4970, 4971, 4972, 4973, 4974, 4975, 4976, 4977,
  6618, 8304, 8308, 8309, 8310, 8311, 8312, 8313, 8320, 8321, 8322, 8323,
  8324, 8325, 8326, 8327, 8328, 8329, 9312, 9313, 9314, 9315, 9316, 9317,
  9318, 9319, 9320, 9332, 9333, 9334, 9335, 9336, 9337, 9338, 9339, 9340,
  9352, 9353, 9354, 9355, 9356, 9357, 9358, 9359, 9360, 9450, 9461, 9462,
  9463, 9464, 9465, 9466, 9467, 9468, 9469, 9471, 10102, 10103, 10104, 10105,
  10106, 10107, 10108, 10109, 10110, 10112, 10113, 10114, 10115, 10116, 10117, 10118,
  10119, 10120, 10122, 10123, 10124, 10125, 10126, 10127, 10128, 10129, 10130, 68160,
  68161, 68162, 68163, 69216, 69217, 69218, 69219, 69220, 69221, 69222, 69223, 69224,
  69714, 69715, 69716, 69717, 69718, 69719, 69720, 69721, 69722, 127232, 127233, 127234,
  127235, 127236, 127237, 127238, 127239, 127240, 127241, 127242]

/-- Python `str.isdigit()` on one character: decimal digits plus the
digit-but-not-decimal characters. -/
def pyIsDigitChar (c : Char) : Bool :=
  pyIsDecimal c || digitNotDecimalCodes.contains c.toNat

/-- Python `int(digits)` for a run of `Nd` digit characters. -/
def intFromDecimalDigits (ds : List Char) : Nat :=
  ds.foldl (fun n c => 10 * n + pyDecimalVal c) 0

/-- Python `str.strip()`: remove leading and trailing whitespace, using
Python's whitespace set (which includes form feed, vertical tab and Unicode
spaces). -/
def pyStrip (s : List Char) : List Char :=
  ((s.dropWhile pyWhitespaceChar).reverse.dropWhile pyWhitespaceChar).reverse

/-- Python `s.rfind(pat)`: the largest index at which `pat` occurs in `s`,
or `none` when it does not occur (the source's `-1`). -/
def rfindPre (pat s : List Char) : Option Nat :=
  ((List.range (s.length + 1)).filter (fun i => startsList pat (s.drop i))).getLast?

/-- The value of `int(digits)` for a run of ASCII decimal digits; used to
state claim C4 over well-formed ASCII tokens. -/
def natFromDigits (ds : List Char) : Nat :=
  ds.foldl (fun n c => 10 * n + (c.toNat - 48)) 0

/-- The outcome of one call of the source's `turn_token_into_id`: a returned
`Optional[int]`, or a raised `ValueError`. -/
inductive PyOutcome where
  | ret (v : Option Int) : PyOutcome
  | valueError : PyOutcome
deriving DecidableEq

/-- The parsing core of `turn_token_into_id` (decoder.py lines 42-67),
acting on the stripped character list and the precomputed `index % 7`,
with the raising path made explicit: `digits.isdigit()` (line 57) accepts
every Unicode digit, but `int(digits)` (line 62) raises `ValueError` when
some digit is not a decimal (category `Nd`) digit. -/
def parseTokenPy (t : List Char) (mod : Nat) : PyOutcome :=
  match rfindPre CUSTOM_TOKEN_PRE t with
  | none => .ret none
  | some last_idx =>
    if startsList CUSTOM_TOKEN_PRE (t.drop last_idx)
        && ((t.drop last_idx).getLast? == some '>') then
      if (!((t.drop last_idx).drop CUSTOM_TOKEN_PRE.length).dropLast.isEmpty)
          && ((t.drop last_idx).drop CUSTOM_TOKEN_PRE.length).dropLast.all pyIsDigitChar then
        if ((t.drop last_idx).drop CUSTOM_TOKEN_PRE.length).dropLast.all pyIsDecimal then
          .ret (some ((intFromDecimalDigits
              (((t.drop last_idx).drop CUSTOM_TOKEN_PRE.length).dropLast) : Int)
            - 10 - (mod : Int) * 4096))
        else .valueError
      else .ret none
    else .ret none

/-- The returned-value view of `parseTokenPy`, consumed by the scheduler
model.  In the source a `ValueError` propagates out of `tokens_decoder` and
aborts the whole request (recorded as claim C5's code bug); the scheduler
claims quantify over the per-token behaviour of the non-aborting runs, so
the raising path is mapped to a skip here. -/
def parseToken (t : List Char) (mod : Nat) : Option Int :=
  match parseTokenPy t mod with
  | .ret v => v
  | .valueError => none

/-- The parser `turn_token_into_id` (decoder.py lines 25-67) with the raised
exception explicit, without the process-wide cache. -/
def turn_token_into_id_py (token_string : String) (index : Nat) : PyOutcome :=
  parseTokenPy (pyStrip token_string.toList) (index % 7)

/-- The parser `turn_token_into_id` (decoder.py lines 25-67), without the process-wide
cache; the cached variant below is proved to agree with it. -/
def turn_token_into_id (token_string : String) (index : Nat) : Option Int :=
  parseToken (pyStrip token_string.toList) (index % 7)

example : turn_token_into_id "<custom_token_11>" 0 = some 1 := by decide
example : turn_token_into_id "<custom_token_10>" 0 = some 0 := by decide
example : turn_token_into_id "  <custom_token_4107>  " 8 = some 1 := by decide
example : turn_token_into_id "garbage" 3 = none := by decide
example : turn_token_into_id "<custom_token_>" 0 = none := by decide
example : turn_token_into_id "x<custom_token_5<custom_token_12>" 0 = some 2 := by decide

/-- The constant `_MAX_CACHE_SIZE` (decoder.py line 21). -/
def MAX_CACHE_SIZE : Nat := 25000

/-- A cache key: the stripped token text together with `index % 7`
(decoder.py line 37). -/
abbrev CacheKey := List Char × Nat

/-- The process-wide `_token_id_cache`, modelled as an association list from
keys to cached outcomes (`none` is the cached rejection marker). -/
abbrev Cache := List (CacheKey × Option Int)

/-- Dictionary lookup in the modelled cache. -/
def cacheFind (cache : Cache) (key : CacheKey) : Option (Option Int) :=
  (cache.find? (fun e => decide (e.1 = key))).map (fun e => e.2)

/-- The parser `turn_token_into_id` with its cache made explicit: returns the result
together with the updated cache.  On a hit the cached outcome is returned;
on a miss the parse outcome is inserted only while the cache holds fewer
than `MAX_CACHE_SIZE` entries (decoder.py lines 35-67). -/
def turn_token_into_id_cached (cache : Cache) (token_string : String)
    (index : Nat) : Option Int × Cache :=
  match cacheFind cache (pyStrip token_string.toList, index % 7) with
  | some v => (v, cache)
  | none =>
    match parseTokenPy (pyStrip token_string.toList) (index % 7) with
    | .valueError => (none, cache)
    | .ret v =>
      if cache.length < MAX_CACHE_SIZE then
        (v, ((pyStrip token_string.toList, index % 7), v) :: cache)
      else (v, cache)

/-- Every cache entry records exactly the parse outcome for its key; all
caches reachable in the program satisfy this. -/
def CacheCoherent (cache : Cache) : Prop :=
  ∀ e ∈ cache, e.2 = parseToken e.1.1 e.1.2

/-- The external neural codec (`model.decode` in decoder.py; the SNAC model
is not part of this repository).  Modelled from the spec: a function from the
three codebook index tensors, here lists of shapes F, 2F and 4F, to a
waveform, here the list of its samples. -/
structure Codec where
  decode : List Int → List Int → List Int → List Int

/-- The codec contract stated in the spec: the returned waveform has
`S ≥ 4096` samples for `F ≥ 4` frames and `S ≥ 2048` samples for `F = 1`. -/
def codecContract (codec : Codec) : Prop :=
  ∀ c0 c1 c2 : List Int,
    (4 ≤ c0.length → 4096 ≤ (codec.decode c0 c1 c2).length) ∧
    (c0.length = 1 → 2048 ≤ (codec.decode c0 c1 c2).length)

/-- The frame count `num_frames = len(multiframe) // 7` (decoder.py line 80). -/
def numFrames (multiframe : List Int) : Nat := multiframe.length / 7

/-- The contents of tensor `codes_0`: `multiframe[7i]` for each frame `i`
(decoder.py line 90). -/
def codes0 (multiframe : List Int) : List Int :=
  (List.range (numFrames multiframe)).map (fun i => multiframe.getD (7 * i) 0)

/-- The contents of tensor `codes_1`: `multiframe[7i+1], multiframe[7i+4]`
for each frame `i` (decoder.py lines 92-93). -/
def codes1 (multiframe : List Int) : List Int :=
  (List.range (numFrames multiframe)).flatMap
    (fun i => [multiframe.getD (7 * i + 1) 0, multiframe.getD (7 * i + 4) 0])

/-- The contents of tensor `codes_2`:
`multiframe[7i+2], multiframe[7i+3], multiframe[7i+5], multiframe[7i+6]`
for each frame `i` (decoder.py lines 95-98). -/
def codes2 (multiframe : List Int) : List Int :=
  (List.range (numFrames multiframe)).flatMap
    (fun i => [multiframe.getD (7 * i + 2) 0, multiframe.getD (7 * i + 3) 0,
               multiframe.getD (7 * i + 5) 0, multiframe.getD (7 * i + 6) 0])

/-- The bulk range check `torch.any(codes < 0) or torch.any(codes > 4096)` for one tensor
(decoder.py lines 101-103). -/
def rangeBad (codes : List Int) : Bool :=
  codes.any (fun c => decide (c < 0) || decide (4096 < c))

/-- The codec invoker `convert_to_audio` (decoder.py lines 71-117).  Returns the emitted PCM
chunk as its list of samples: the slice `[2048:4096]` of the codec's
waveform.  The `count` argument is unused, as in the source. -/
def convert_to_audio (codec : Codec) (multiframe : List Int) (count : Nat) :
    Option (List Int) :=
  if multiframe.length < 7 then none
  else if rangeBad (codes0 multiframe) || rangeBad (codes1 multiframe)
      || rangeBad (codes2 multiframe) then none
  else some (((codec.decode (codes0 multiframe) (codes1 multiframe)
      (codes2 multiframe)).drop 2048).take 2048)

/-- The scheduler state of `tokens_decoder` (decoder.py lines 129-131). -/
structure DecState where
  buffer : List Int
  count : Nat
  first_chunk_sent : Bool
deriving DecidableEq

/-- One codec invocation performed by the scheduler: the window passed to
`convert_to_audio`, the value of `count` at the call, whether the call came
from the subsequent-chunk branch, and whether it returned audio. -/
structure CallRec where
  window : List Int
  count : Nat
  subsequent : Bool
  success : Bool
deriving DecidableEq

/-- The constant `MIN_FRAMES_FIRST` (decoder.py line 132). -/
def MIN_FRAMES_FIRST : Nat := 7

/-- The constant `MIN_FRAMES_SUBSEQ` (decoder.py line 133). -/
def MIN_FRAMES_SUBSEQ : Nat := 28

/-- The constant `PROCESS_EVERY` (decoder.py line 134). -/
def PROCESS_EVERY : Nat := 7

/-- Python `buffer[-n:]`: the last `min n (length)` elements. -/
def lastN (l : List Int) (n : Nat) : List Int := l.drop (l.length - n)

/-- The body of the `async for` loop of `tokens_decoder`
(decoder.py lines 136-152) for one incoming token: returns the new state,
the chunks yielded at this step, and the codec invocations performed. -/
def stepToken (codec : Codec) (st : DecState) (token_sim : String) :
    DecState × List (List Int) × List CallRec :=
  match turn_token_into_id token_sim st.count with
  | none => (st, [], [])
  | some token =>
    if token ≤ 0 then (st, [], [])
    else
      let buffer := st.buffer ++ [token]
      let count := st.count + 1
      if !st.first_chunk_sent && decide (MIN_FRAMES_FIRST ≤ count) then
        let window := lastN buffer MIN_FRAMES_FIRST
        match convert_to_audio codec window count with
        | some audio => (⟨buffer, count, true⟩, [audio], [⟨window, count, false, true⟩])
        | none => (⟨buffer, count, st.first_chunk_sent⟩, [], [⟨window, count, false, false⟩])
      else if st.first_chunk_sent && decide (count % PROCESS_EVERY = 0) then
        let window := lastN buffer MIN_FRAMES_SUBSEQ
        match convert_to_audio codec window count with
        | some audio => (⟨buffer, count, st.first_chunk_sent⟩, [audio], [⟨window, count, true, true⟩])
        | none => (⟨buffer, count, st.first_chunk_sent⟩, [], [⟨window, count, true, false⟩])
      else (⟨buffer, count, st.first_chunk_sent⟩, [], [])

/-- Iterating `stepToken` over the whole token stream, collecting the
yielded chunks and the codec invocations. -/
def runAux (codec : Codec) (st : DecState) :
    List String → DecState × List (List Int) × List CallRec
  | [] => (st, [], [])
  | t :: ts =>
    let r := stepToken codec st t
    let rest := runAux codec r.1 ts
    (rest.1, r.2.1 ++ rest.2.1, r.2.2 ++ rest.2.2)

/-- The initial scheduler state (decoder.py lines 129-131). -/
def initState : DecState := ⟨[], 0, false⟩

/-- The scheduler `tokens_decoder` (decoder.py lines 121-152): the list of audio chunks
yielded for the given token stream. -/
def tokens_decoder (codec : Codec) (token_gen : List String) : List (List Int) :=
  (runAux codec initState token_gen).2.1

/-- The codec invocations performed while decoding the given stream. -/
def decoderCalls (codec : Codec) (token_gen : List String) : List CallRec :=
  (runAux codec initState token_gen).2.2

/-- The scheduler state after decoding the given stream. -/
def finalState (codec : Codec) (token_gen : List String) : DecState :=
  (runAux codec initState token_gen).1

/-- A concrete codec used for witnesses: always returns 8192 samples. -/
def constCodec : Codec := ⟨fun _ _ _ => List.replicate 8192 0⟩

/-- A concrete codec returning 2048 samples per frame; it satisfies the
spec's codec contract. -/
def lenCodec : Codec := ⟨fun c0 _ _ => List.replicate (2048 * c0.length) 0⟩

/-- The token decoding to codebook index 1 at slot `m` is
`<custom_token_(11 + 4096 m)>`. -/
def toksOne7 : List String :=
  ["<custom_token_11>", "<custom_token_4107>", "<custom_token_8203>",
   "<custom_token_12299>", "<custom_token_16395>", "<custom_token_20491>",
   "<custom_token_24587>"]

/-- Fourteen tokens each decoding to codebook index 1. -/
def toksOne14 : List String := toksOne7 ++ toksOne7

/-- Twenty-eight tokens each decoding to codebook index 1. -/
def toksOne28 : List String := toksOne14 ++ toksOne14

/-- The spec's single-frame-prime scenario: seven tokens each decoding to
codebook index 0. -/
def toksZero7 : List String :=
  ["<custom_token_10>", "<custom_token_4106>", "<custom_token_8202>",
   "<custom_token_12298>", "<custom_token_16394>", "<custom_token_20490>",
   "<custom_token_24586>"]

/-- The spec's out-of-range-mid-window scenario: 14 tokens each decoding to
index 1, except the one at position 8 (slot 1), which decodes to 5000. -/
def toksMid5000 : List String :=
  toksOne7 ++
  ["<custom_token_11>", "<custom_token_9106>", "<custom_token_8203>",
   "<custom_token_12299>", "<custom_token_16395>", "<custom_token_20491>",
   "<custom_token_24587>"]

example : tokens_decoder constCodec toksZero7 = [] := by decide
example : (tokens_decoder constCodec toksOne7).length = 1 := by decide
example : (tokens_decoder constCodec toksOne14).length = 2 := by decide
example : (decoderCalls constCodec toksMid5000).map (fun c => (c.count, c.success)) =
    [(7, true), (14, false)] := by decide

/-- The chunk produced by a successful codec invocation on window `w`. -/
def sliceChunk (codec : Codec) (w : List Int) : List Int :=
  ((codec.decode (codes0 w) (codes1 w) (codes2 w)).drop 2048).take 2048

lemma mem_of_getLast?_eq_some {α : Type} : ∀ {l : List α} {a : α},
    l.getLast? = some a → a ∈ l
  | [], _, h => by simp at h
  | [x], a, h => by
      simp [List.getLast?_singleton] at h
      simp [h]
  | x :: y :: ys, a, h => by
      rw [List.getLast?_cons_cons] at h
      exact List.mem_cons_of_mem x (mem_of_getLast?_eq_some h)

lemma getD_mem_of_lt {mf : List Int} {k : Nat} (h : k < mf.length) :
    mf.getD k 0 ∈ mf := by
  rw [List.getD_eq_getElem mf 0 h]
  exact List.getElem_mem h

lemma sevenMul_numFrames_le (mf : List Int) : 7 * numFrames mf ≤ mf.length := by
  have h := Nat.div_mul_le_self mf.length 7
  unfold numFrames
  omega

lemma codes0_sub {mf : List Int} : ∀ x ∈ codes0 mf, x ∈ mf := by
  intro x hx
  have hn := sevenMul_numFrames_le mf
  simp only [codes0, List.mem_map, List.mem_range] at hx
  obtain ⟨i, hi, rfl⟩ := hx
  exact getD_mem_of_lt (by omega)

lemma codes1_sub {mf : List Int} : ∀ x ∈ codes1 mf, x ∈ mf := by
  intro x hx
  have hn := sevenMul_numFrames_le mf
  simp only [codes1, List.mem_flatMap, List.mem_range] at hx
  obtain ⟨i, hi, hx⟩ := hx
  simp only [List.mem_cons, List.not_mem_nil, or_false] at hx
  rcases hx with rfl | rfl
  · exact getD_mem_of_lt (by omega)
  · exact getD_mem_of_lt (by omega)

lemma codes2_sub {mf : List Int} : ∀ x ∈ codes2 mf, x ∈ mf := by
  intro x hx
  have hn := sevenMul_numFrames_le mf
  simp only [codes2, List.mem_flatMap, List.mem_range] at hx
  obtain ⟨i, hi, hx⟩ := hx
  simp only [List.mem_cons, List.not_mem_nil, or_false] at hx
  rcases hx with rfl | rfl | rfl | rfl
  · exact getD_mem_of_lt (by omega)
  · exact getD_mem_of_lt (by omega)
  · exact getD_mem_of_lt (by omega)
  · exact getD_mem_of_lt (by omega)

lemma rangeBad_eq_true_iff {c : List Int} :
    rangeBad c = true ↔ ∃ x ∈ c, x < 0 ∨ 4096 < x := by
  simp [rangeBad, List.any_eq_true]

lemma rangeBad_eq_false {c : List Int} (h : ∀ x ∈ c, 0 ≤ x ∧ x ≤ 4096) :
    rangeBad c = false := by
  rw [← Bool.not_eq_true, rangeBad_eq_true_iff]
  push_neg
  intro x hx
  have := h x hx
  omega

lemma convert_eq_some (codec : Codec) {mf : List Int} (cnt : Nat)
    (h7 : 7 ≤ mf.length) (hok : ∀ x ∈ mf, 0 ≤ x ∧ x ≤ 4096) :
    convert_to_audio codec mf cnt = some (sliceChunk codec mf) := by
  unfold convert_to_audio
  rw [if_neg (by omega)]
  rw [rangeBad_eq_false (fun x hx => hok x (codes0_sub x hx)),
      rangeBad_eq_false (fun x hx => hok x (codes1_sub x hx)),
      rangeBad_eq_false (fun x hx => hok x (codes2_sub x hx))]
  rfl

lemma convert_eq_some_shape {codec : Codec} {mf a : List Int} {cnt : Nat}
    (h : convert_to_audio codec mf cnt = some a) : a = sliceChunk codec mf := by
  unfold convert_to_audio at h
  by_cases h7 : mf.length < 7
  · rw [if_pos h7] at h
    exact absurd h (by simp)
  · rw [if_neg h7] at h
    by_cases hb : (rangeBad (codes0 mf) || rangeBad (codes1 mf) || rangeBad (codes2 mf)) = true
    · simp only [hb, if_true] at h
      exact absurd h (by simp)
    · simp only [Bool.not_eq_true] at hb
      simp only [hb, if_false] at h
      exact (Option.some_inj.mp h).symm

lemma convert_eq_none_iff (codec : Codec) {mf : List Int} (cnt : Nat)
    (h7 : 7 ≤ mf.length) :
    convert_to_audio codec mf cnt = none ↔
      ∃ x ∈ codes0 mf ++ codes1 mf ++ codes2 mf, x < 0 ∨ 4096 < x := by
  unfold convert_to_audio
  rw [if_neg (by omega)]
  by_cases hb : (rangeBad (codes0 mf) || rangeBad (codes1 mf) || rangeBad (codes2 mf)) = true
  · simp only [hb, if_true, true_iff]
    simp only [Bool.or_eq_true, rangeBad_eq_true_iff] at hb
    rcases hb with (⟨x, hx, hr⟩ | ⟨x, hx, hr⟩) | ⟨x, hx, hr⟩ <;>
      exact ⟨x, by simp [hx], hr⟩
  · simp only [Bool.not_eq_true] at hb
    simp only [hb, if_false]
    constructor
    · intro h
      exact absurd h (by simp)
    · intro ⟨x, hx, hr⟩
      exfalso
      simp only [Bool.or_eq_false_iff] at hb
      simp only [List.mem_append] at hx
      rcases hx with (hx | hx) | hx
      · have := (rangeBad_eq_true_iff (c := codes0 mf)).mpr ⟨x, hx, hr⟩
        simp [hb.1.1] at this
      · have := (rangeBad_eq_true_iff (c := codes1 mf)).mpr ⟨x, hx, hr⟩
        simp [hb.1.2] at this
      · have := (rangeBad_eq_true_iff (c := codes2 mf)).mpr ⟨x, hx, hr⟩
        simp [hb.2] at this

lemma lastN_subset {l : List Int} {n : Nat} : ∀ x ∈ lastN l n, x ∈ l :=
  fun _ hx => List.drop_subset _ l hx

lemma lastN_length (l : List Int) (n : Nat) :
    (lastN l n).length = l.length - (l.length - n) := by
  simp [lastN]

/-- Complete case analysis of one scheduler step. -/
lemma stepToken_cases (codec : Codec) (st : DecState) (t : String) :
    stepToken codec st t = (st, [], []) ∨
    ∃ token, turn_token_into_id t st.count = some token ∧ 0 < token ∧
      ((st.first_chunk_sent = false ∧ 7 ≤ st.count + 1 ∧
         ((∃ audio,
             convert_to_audio codec (lastN (st.buffer ++ [token]) 7) (st.count + 1) = some audio ∧
             stepToken codec st t = (⟨st.buffer ++ [token], st.count + 1, true⟩, [audio],
               [⟨lastN (st.buffer ++ [token]) 7, st.count + 1, false, true⟩])) ∨
          (convert_to_audio codec (lastN (st.buffer ++ [token]) 7) (st.count + 1) = none ∧
             stepToken codec st t = (⟨st.buffer ++ [token], st.count + 1, false⟩, [],
               [⟨lastN (st.buffer ++ [token]) 7, st.count + 1, false, false⟩])))) ∨
       (st.first_chunk_sent = true ∧ (st.count + 1) % 7 = 0 ∧
         ((∃ audio,
             convert_to_audio codec (lastN (st.buffer ++ [token]) 28) (st.count + 1) = some audio ∧
             stepToken codec st t = (⟨st.buffer ++ [token], st.count + 1, true⟩, [audio],
               [⟨lastN (st.buffer ++ [token]) 28, st.count + 1, true, true⟩])) ∨
          (convert_to_audio codec (lastN (st.buffer ++ [token]) 28) (st.count + 1) = none ∧
             stepToken codec st t = (⟨st.buffer ++ [token], st.count + 1, true⟩, [],
               [⟨lastN (st.buffer ++ [token]) 28, st.count + 1, true, false⟩])))) ∨
       ((st.first_chunk_sent = false ∧ st.count + 1 < 7 ∨
           st.first_chunk_sent = true ∧ (st.count + 1) % 7 ≠ 0) ∧
         stepToken codec st t = (⟨st.buffer ++ [token], st.count + 1, st.first_chunk_sent⟩, [], []))) := by
  cases h : turn_token_into_id t st.count with
  | none =>
    left
    simp only [stepToken, h]
  | some token =>
    by_cases h0 : token ≤ 0
    · left
      simp only [stepToken, h, if_pos h0]
    · right
      refine ⟨token, rfl, by omega, ?_⟩
      simp only [stepToken, h, if_neg h0, MIN_FRAMES_FIRST, MIN_FRAMES_SUBSEQ, PROCESS_EVERY]
      cases hf : st.first_chunk_sent with
      | false =>
        simp only [Bool.not_false, Bool.true_and]
        by_cases h7 : 7 ≤ st.count + 1
        · rw [if_pos (by simp [h7])]
          refine Or.inl ⟨by trivial, h7, ?_⟩
          cases hcv : convert_to_audio codec (lastN (st.buffer ++ [token]) 7) (st.count + 1) with
          | some audio =>
            exact Or.inl ⟨audio, rfl, rfl⟩
          | none =>
            exact Or.inr ⟨rfl, rfl⟩
        · rw [if_neg (by simp [h7]), if_neg (by simp)]
          exact Or.inr (Or.inr ⟨Or.inl ⟨by trivial, by omega⟩, rfl⟩)
      | true =>
        simp only [Bool.not_true, Bool.false_and, Bool.true_and]
        rw [if_neg (by simp)]
        by_cases hm : (st.count + 1) % 7 = 0
        · rw [if_pos (by simp [hm])]
          refine Or.inr (Or.inl ⟨by trivial, hm, ?_⟩)
          cases hcv : convert_to_audio codec (lastN (st.buffer ++ [token]) 28) (st.count + 1) with
          | some audio =>
            exact Or.inl ⟨audio, rfl, rfl⟩
          | none =>
            exact Or.inr ⟨rfl, rfl⟩
        · rw [if_neg (by simp [hm])]
          exact Or.inr (Or.inr ⟨Or.inr ⟨by trivial, hm⟩, rfl⟩)

lemma turn_token_into_id_mod (t : String) (i : Nat) :
    turn_token_into_id t i = turn_token_into_id t (i % 7) := by
  have h : i % 7 % 7 = i % 7 := by omega
  simp [turn_token_into_id, h]

/-- The buffer only ever grows: the final buffer extends the starting one. -/
lemma runAux_buffer_extension (codec : Codec) : ∀ (toks : List String) (st : DecState),
    ∃ l, (runAux codec st toks).1.buffer = st.buffer ++ l
  | [], st => ⟨[], by simp [runAux]⟩
  | t :: ts, st => by
    obtain ⟨l, hl⟩ := runAux_buffer_extension codec ts (stepToken codec st t).1
    have hstep : (stepToken codec st t).1.buffer = st.buffer ∨
        ∃ token, (stepToken codec st t).1.buffer = st.buffer ++ [token] := by
      rcases stepToken_cases codec st t with h | ⟨token, _, _, hcase⟩
      · rw [h]
        exact Or.inl rfl
      · rcases hcase with ⟨_, _, hcv⟩ | ⟨_, _, hcv⟩ | ⟨_, hst⟩
        · rcases hcv with ⟨a, _, hst⟩ | ⟨_, hst⟩ <;> rw [hst] <;> exact Or.inr ⟨token, rfl⟩
        · rcases hcv with ⟨a, _, hst⟩ | ⟨_, hst⟩ <;> rw [hst] <;> exact Or.inr ⟨token, rfl⟩
        · rw [hst]
          exact Or.inr ⟨token, rfl⟩
    show ∃ l', (runAux codec (stepToken codec st t).1 ts).1.buffer = st.buffer ++ l'
    rcases hstep with h | ⟨token, h⟩
    · exact ⟨l, by rw [hl, h]⟩
    · exact ⟨token :: l, by rw [hl, h]; simp⟩

/-- Invariants of the scheduler run used by several claims: the buffer length
always equals the accepted-token count, the first-chunk flag implies at least
seven accepted tokens, all buffered indices are positive, and each recorded
codec invocation has the stated window. -/
lemma runAux_invariant (codec : Codec) : ∀ (toks : List String) (st : DecState),
    st.buffer.length = st.count →
    (st.first_chunk_sent = true → 7 ≤ st.count) →
    (∀ x ∈ st.buffer, 0 < x) →
    (runAux codec st toks).1.buffer.length = (runAux codec st toks).1.count ∧
    ((runAux codec st toks).1.first_chunk_sent = true → 7 ≤ (runAux codec st toks).1.count) ∧
    (∀ x ∈ (runAux codec st toks).1.buffer, 0 < x) ∧
    ∀ c ∈ (runAux codec st toks).2.2,
      (∀ x ∈ c.window, 0 < x) ∧ 7 ≤ c.window.length ∧
      (c.subsequent = true → c.count % 7 = 0 ∧ 14 ≤ c.count ∧
        c.window.length = min c.count 28) ∧
      (c.subsequent = false → c.window.length = 7 ∧ 7 ≤ c.count) ∧
      (c.success = false →
        ∃ x ∈ codes0 c.window ++ codes1 c.window ++ codes2 c.window, 4096 < x)
  | [], st => by
    intro h1 h2 h3
    exact ⟨h1, h2, h3, by simp [runAux]⟩
  | t :: ts, st => by
    intro h1 h2 h3
    have hsplit : runAux codec st (t :: ts) =
        ((runAux codec (stepToken codec st t).1 ts).1,
         (stepToken codec st t).2.1 ++ (runAux codec (stepToken codec st t).1 ts).2.1,
         (stepToken codec st t).2.2 ++ (runAux codec (stepToken codec st t).1 ts).2.2) := rfl
    rcases stepToken_cases codec st t with hstep | ⟨token, htok, hpos, hcase⟩
    · rw [hsplit, hstep]
      have ih := runAux_invariant codec ts st h1 h2 h3
      simpa using ih
    · -- facts about the accepted-token state pieces
      have hblen : (st.buffer ++ [token]).length = st.count + 1 := by
        simp [h1]
      have hbpos : ∀ x ∈ st.buffer ++ [token], 0 < x := by
        intro x hx
        rcases List.mem_append.mp hx with hx | hx
        · exact h3 x hx
        · simp at hx
          omega
      have hwin7 : 7 ≤ st.count + 1 →
          (lastN (st.buffer ++ [token]) 7).length = 7 := by
        intro h7
        rw [lastN_length, hblen]
        omega
      have hwin28 : (lastN (st.buffer ++ [token]) 28).length = min (st.count + 1) 28 := by
        rw [lastN_length, hblen]
        omega
      rcases hcase with ⟨hf, h7, hcv⟩ | ⟨hf, hm, hcv⟩ | ⟨hcond, hstep⟩
      · -- priming branch
        have hw7 : (lastN (st.buffer ++ [token]) 7).length = 7 := hwin7 h7
        have hwpos : ∀ x ∈ lastN (st.buffer ++ [token]) 7, 0 < x :=
          fun x hx => hbpos x (lastN_subset x hx)
        rcases hcv with ⟨audio, hcv, hstep⟩ | ⟨hcv, hstep⟩
        · rw [hsplit, hstep]
          have ih := runAux_invariant codec ts ⟨st.buffer ++ [token], st.count + 1, true⟩
            hblen (fun _ => by show 7 ≤ st.count + 1; omega) hbpos
          refine ⟨ih.1, ih.2.1, ih.2.2.1, ?_⟩
          intro c hc
          simp only [List.cons_append, List.nil_append, List.mem_cons] at hc
          rcases hc with rfl | hc
          · refine ⟨hwpos, ?_, ?_, ?_, ?_⟩
            · simp [hw7]
            · intro h
              simp at h
            · intro _
              exact ⟨hw7, h7⟩
            · intro h
              simp at h
          · exact ih.2.2.2 c hc
        · rw [hsplit, hstep]
          have ih := runAux_invariant codec ts ⟨st.buffer ++ [token], st.count + 1, false⟩
            hblen (fun h => nomatch h) hbpos
          refine ⟨ih.1, ih.2.1, ih.2.2.1, ?_⟩
          intro c hc
          simp only [List.cons_append, List.nil_append, List.mem_cons] at hc
          rcases hc with rfl | hc
          · refine ⟨hwpos, ?_, ?_, ?_, ?_⟩
            · simp [hw7]
            · intro h
              simp at h
            · intro _
              exact ⟨hw7, h7⟩
            · intro _
              have hnone := (convert_eq_none_iff codec (st.count + 1) (by omega)).mp hcv
              obtain ⟨x, hx, hxr⟩ := hnone
              refine ⟨x, hx, ?_⟩
              have hx0 : 0 < x := by
                simp only [List.mem_append] at hx
                rcases hx with (hx | hx) | hx
                · exact hwpos x (codes0_sub x hx)
                · exact hwpos x (codes1_sub x hx)
                · exact hwpos x (codes2_sub x hx)
              omega
          · exact ih.2.2.2 c hc
      · -- subsequent branch
        have hfirst : 7 ≤ st.count := h2 hf
        have hw28 : (lastN (st.buffer ++ [token]) 28).length = min (st.count + 1) 28 := hwin28
        have hw7le : 7 ≤ (lastN (st.buffer ++ [token]) 28).length := by
          rw [hw28]
          omega
        have hwpos : ∀ x ∈ lastN (st.buffer ++ [token]) 28, 0 < x :=
          fun x hx => hbpos x (lastN_subset x hx)
        rcases hcv with ⟨audio, hcv, hstep⟩ | ⟨hcv, hstep⟩
        · rw [hsplit, hstep]
          have ih := runAux_invariant codec ts ⟨st.buffer ++ [token], st.count + 1, true⟩
            hblen (fun _ => by show 7 ≤ st.count + 1; omega) hbpos
          refine ⟨ih.1, ih.2.1, ih.2.2.1, ?_⟩
          intro c hc
          simp only [List.cons_append, List.nil_append, List.mem_cons] at hc
          rcases hc with rfl | hc
          · refine ⟨hwpos, hw7le, ?_, ?_, ?_⟩
            · intro _
              refine ⟨hm, ?_, hw28⟩
              show 14 ≤ st.count + 1
              omega
            · intro h
              simp at h
            · intro h
              simp at h
          · exact ih.2.2.2 c hc
        · rw [hsplit, hstep]
          have ih := runAux_invariant codec ts ⟨st.buffer ++ [token], st.count + 1, true⟩
            hblen (fun _ => by show 7 ≤ st.count + 1; omega) hbpos
          refine ⟨ih.1, ih.2.1, ih.2.2.1, ?_⟩
          intro c hc
          simp only [List.cons_append, List.nil_append, List.mem_cons] at hc
          rcases hc with rfl | hc
          · refine ⟨hwpos, hw7le, ?_, ?_, ?_⟩
            · intro _
              refine ⟨hm, ?_, hw28⟩
              show 14 ≤ st.count + 1
              omega
            · intro h
              simp at h
            · intro _
              have hnone := (convert_eq_none_iff codec (st.count + 1) hw7le).mp hcv
              obtain ⟨x, hx, hxr⟩ := hnone
              refine ⟨x, hx, ?_⟩
              have hx0 : 0 < x := by
                simp only [List.mem_append] at hx
                rcases hx with (hx | hx) | hx
                · exact hwpos x (codes0_sub x hx)
                · exact hwpos x (codes1_sub x hx)
                · exact hwpos x (codes2_sub x hx)
              omega
          · exact ih.2.2.2 c hc
      · -- no-emission branch
        rw [hsplit, hstep]
        have hfs : (⟨st.buffer ++ [token], st.count + 1, st.first_chunk_sent⟩ : DecState).first_chunk_sent = true →
            7 ≤ st.count + 1 := by
          intro h
          have := h2 h
          omega
        have ih := runAux_invariant codec ts ⟨st.buffer ++ [token], st.count + 1, st.first_chunk_sent⟩
          hblen hfs hbpos
        simpa using ih

/-- Every chunk ever yielded is the `[2048:4096]` slice of a codec waveform. -/
lemma runAux_chunk_shape (codec : Codec) : ∀ (toks : List String) (st : DecState),
    ∀ a ∈ (runAux codec st toks).2.1, ∃ w, a = sliceChunk codec w
  | [], st => by
    intro a ha
    simp [runAux] at ha
  | t :: ts, st => by
    intro a ha
    have hsplit : (runAux codec st (t :: ts)).2.1 =
        (stepToken codec st t).2.1 ++ (runAux codec (stepToken codec st t).1 ts).2.1 := rfl
    rw [hsplit, List.mem_append] at ha
    rcases ha with ha | ha
    · rcases stepToken_cases codec st t with hstep | ⟨token, _, _, hcase⟩
      · rw [hstep] at ha
        simp at ha
      · rcases hcase with ⟨_, _, hcv⟩ | ⟨_, _, hcv⟩ | ⟨_, hstep⟩
        · rcases hcv with ⟨audio, hcv, hstep⟩ | ⟨_, hstep⟩
          · rw [hstep] at ha
            simp only [List.mem_singleton] at ha
            exact ⟨lastN (st.buffer ++ [token]) 7, ha ▸ convert_eq_some_shape hcv⟩
          · rw [hstep] at ha
            simp at ha
        · rcases hcv with ⟨audio, hcv, hstep⟩ | ⟨_, hstep⟩
          · rw [hstep] at ha
            simp only [List.mem_singleton] at ha
            exact ⟨lastN (st.buffer ++ [token]) 28, ha ▸ convert_eq_some_shape hcv⟩
          · rw [hstep] at ha
            simp at ha
        · rw [hstep] at ha
          simp at ha
    · exact runAux_chunk_shape codec ts (stepToken codec st t).1 a ha

/-- Chunk counting: with every parsed index at most 4096, the number of
chunks yielded grows exactly with `count / 7`. -/
lemma runAux_chunk_count (codec : Codec) : ∀ (toks : List String) (st : DecState),
    (∀ x ∈ (runAux codec st toks).1.buffer, x ≤ 4096) →
    st.buffer.length = st.count →
    (∀ x ∈ st.buffer, 0 < x ∧ x ≤ 4096) →
    st.first_chunk_sent = decide (7 ≤ st.count) →
    (runAux codec st toks).1.buffer.length = (runAux codec st toks).1.count ∧
    (∀ x ∈ (runAux codec st toks).1.buffer, 0 < x ∧ x ≤ 4096) ∧
    (runAux codec st toks).1.first_chunk_sent = decide (7 ≤ (runAux codec st toks).1.count) ∧
    (runAux codec st toks).2.1.length + st.count / 7 = (runAux codec st toks).1.count / 7
  | [], st => by
    intro hH h1 h2 h3
    exact ⟨h1, h2, h3, by simp [runAux]⟩
  | t :: ts, st => by
    intro hH h1 h2 h3
    have hHts : ∀ x ∈ (runAux codec (stepToken codec st t).1 ts).1.buffer, x ≤ 4096 := hH
    have hsplit : runAux codec st (t :: ts) =
        ((runAux codec (stepToken codec st t).1 ts).1,
         (stepToken codec st t).2.1 ++ (runAux codec (stepToken codec st t).1 ts).2.1,
         (stepToken codec st t).2.2 ++ (runAux codec (stepToken codec st t).1 ts).2.2) := rfl
    rcases stepToken_cases codec st t with hstep | ⟨token, htok, hpos, hcase⟩
    · rw [hsplit, hstep]
      have ih := runAux_chunk_count codec ts st (by rw [hstep] at hHts; exact hHts) h1 h2 h3
      simpa using ih
    · have hbufstep : (stepToken codec st t).1.buffer = st.buffer ++ [token] := by
        rcases hcase with ⟨_, _, hcv⟩ | ⟨_, _, hcv⟩ | ⟨_, hst⟩
        · rcases hcv with ⟨a, _, hst⟩ | ⟨_, hst⟩ <;> rw [hst]
        · rcases hcv with ⟨a, _, hst⟩ | ⟨_, hst⟩ <;> rw [hst]
        · rw [hst]
      have htok4096 : token ≤ 4096 := by
        obtain ⟨l, hl⟩ := runAux_buffer_extension codec ts (stepToken codec st t).1
        refine hHts token ?_
        rw [hl, hbufstep]
        simp
      have hblen : (st.buffer ++ [token]).length = st.count + 1 := by
        simp [h1]
      have hbok : ∀ x ∈ st.buffer ++ [token], 0 < x ∧ x ≤ 4096 := by
        intro x hx
        rcases List.mem_append.mp hx with hx | hx
        · exact h2 x hx
        · simp at hx
          constructor <;> omega
      rcases hcase with ⟨hf, h7, hcv⟩ | ⟨hf, hm, hcv⟩ | ⟨hcond, hstep⟩
      · -- priming branch: st.count + 1 = 7 exactly, and the call succeeds
        have hlt7 : st.count < 7 := by
          rw [h3] at hf
          simpa using hf
        have hcount7 : st.count + 1 = 7 := by omega
        have hw7 : (lastN (st.buffer ++ [token]) 7).length = 7 := by
          rw [lastN_length, hblen]
          omega
        have hwok : ∀ x ∈ lastN (st.buffer ++ [token]) 7, 0 ≤ x ∧ x ≤ 4096 := by
          intro x hx
          have := hbok x (lastN_subset x hx)
          constructor <;> omega
        have hsome := convert_eq_some codec (st.count + 1) (le_of_eq hw7.symm) hwok
        rcases hcv with ⟨audio, hcv, hstep⟩ | ⟨hcv, hstep⟩
        · rw [hsplit, hstep]
          have ih := runAux_chunk_count codec ts ⟨st.buffer ++ [token], st.count + 1, true⟩
            (by rw [hstep] at hHts; exact hHts) hblen hbok
            (by symm; rw [decide_eq_true_eq]; show 7 ≤ st.count + 1; omega)
          refine ⟨ih.1, ih.2.1, ih.2.2.1, ?_⟩
          have hc := ih.2.2.2
          simp only [List.length_append, List.length_cons, List.length_nil] at hc ⊢
          simp only [List.cons_append, List.nil_append, List.length_cons] at *
          omega
        · rw [hcv] at hsome
          exact absurd hsome (by simp)
      · -- subsequent branch: the call succeeds and count advances a frame
        have hge7 : 7 ≤ st.count := by
          rw [h3] at hf
          simpa using hf
        have hw28 : (lastN (st.buffer ++ [token]) 28).length = min (st.count + 1) 28 := by
          rw [lastN_length, hblen]
          omega
        have hw7le : 7 ≤ (lastN (st.buffer ++ [token]) 28).length := by
          rw [hw28]
          omega
        have hwok : ∀ x ∈ lastN (st.buffer ++ [token]) 28, 0 ≤ x ∧ x ≤ 4096 := by
          intro x hx
          have := hbok x (lastN_subset x hx)
          constructor <;> omega
        have hsome := convert_eq_some codec (st.count + 1) hw7le hwok
        rcases hcv with ⟨audio, hcv, hstep⟩ | ⟨hcv, hstep⟩
        · rw [hsplit, hstep]
          have ih := runAux_chunk_count codec ts ⟨st.buffer ++ [token], st.count + 1, true⟩
            (by rw [hstep] at hHts; exact hHts) hblen hbok
            (by symm; rw [decide_eq_true_eq]; show 7 ≤ st.count + 1; omega)
          refine ⟨ih.1, ih.2.1, ih.2.2.1, ?_⟩
          have hc := ih.2.2.2
          simp only [List.cons_append, List.nil_append, List.length_cons] at hc ⊢
          have hdiv : (st.count + 1) / 7 = st.count / 7 + 1 := by omega
          omega
        · rw [hcv] at hsome
          exact absurd hsome (by simp)
      · -- no-emission branch: count / 7 is unchanged
        rw [hsplit, hstep]
        have hfs : (⟨st.buffer ++ [token], st.count + 1, st.first_chunk_sent⟩ : DecState).first_chunk_sent =
            decide (7 ≤ st.count + 1) := by
          show st.first_chunk_sent = _
          rcases hcond with ⟨hf, hlt⟩ | ⟨hf, hne⟩
          · rw [hf]
            symm
            simpa using by omega
          · rw [hf]
            symm
            simpa using by
              rw [h3] at hf
              have : 7 ≤ st.count := by simpa using hf
              omega
        have ih := runAux_chunk_count codec ts ⟨st.buffer ++ [token], st.count + 1, st.first_chunk_sent⟩
          (by rw [hstep] at hHts; exact hHts) hblen hbok hfs
        refine ⟨ih.1, ih.2.1, ih.2.2.1, ?_⟩
        have hc := ih.2.2.2
        have hdiv : (st.count + 1) / 7 = st.count / 7 ∨ (st.count + 1) / 7 = st.count / 7 + 1 := by
          omega
        simp only [List.nil_append] at hc ⊢
        -- if the step did not emit, count+1 cannot be a new multiple of 7
        rcases hcond with ⟨hf, hlt⟩ | ⟨hf, hne⟩
        · have : (st.count + 1) / 7 = st.count / 7 := by omega
          omega
        · have : (st.count + 1) / 7 = st.count / 7 := by omega
          omega

lemma sum_twice_len {l : List (List Int)} (h : ∀ ch ∈ l, ch.length = 2048) :
    (l.map (fun ch => 2 * ch.length)).sum = 4096 * l.length := by
  induction l with
  | nil => simp
  | cons a l ih =>
    simp only [List.map_cons, List.sum_cons, List.length_cons]
    rw [h a (List.mem_cons_self a l), ih (fun ch hch => h ch (List.mem_cons_of_mem a hch))]
    ring

/-- A token the parser rejects at every slot; inserting such strings anywhere
cannot affect a run. -/
def structurallyRejected (t : String) : Bool :=
  (List.range 7).all (fun m => (turn_token_into_id t m).isNone)

lemma step_rejected {codec : Codec} {st : DecState} {t : String}
    (h : structurallyRejected t = true) : stepToken codec st t = (st, [], []) := by
  have hm : (turn_token_into_id t (st.count % 7)).isNone = true :=
    (List.all_eq_true.mp h) (st.count % 7) (by simp [List.mem_range]; omega)
  rw [← turn_token_into_id_mod, Option.isNone_iff_eq_none] at hm
  simp [stepToken, hm]

/-- Claim C1: for a run in which every accepted index is at most 4096 (so
every range check passes; accepted indices are exactly the final buffer), the
number of chunks equals `K / 7` where `K` is the number of accepted tokens;
in particular it is `1 + max 0 (K/7 - 1)` once `K ≥ 7`, zero for `K = 6` and
one for `K = 7`. -/
theorem claim_C1 (codec : Codec) (toks : List String)
    (hH : ∀ x ∈ (finalState codec toks).buffer, x ≤ 4096) :
    (tokens_decoder codec toks).length = (finalState codec toks).count / 7 ∧
    (7 ≤ (finalState codec toks).count →
      (tokens_decoder codec toks).length =
        1 + max 0 ((finalState codec toks).count / 7 - 1)) ∧
    ((finalState codec toks).count = 6 → (tokens_decoder codec toks).length = 0) ∧
    ((finalState codec toks).count = 7 → (tokens_decoder codec toks).length = 1) := by
  have h := runAux_chunk_count codec toks initState hH rfl
    (by intro x hx; simp [initState] at hx) (by simp [initState])
  have hlen : (tokens_decoder codec toks).length = (finalState codec toks).count / 7 := by
    have := h.2.2.2
    simpa [tokens_decoder, finalState, initState] using this
  refine ⟨hlen, ?_, ?_, ?_⟩
  · intro h7
    rw [hlen, max_eq_right (Nat.zero_le _)]
    omega
  · intro h6
    rw [hlen, h6]
  · intro h7
    rw [hlen, h7]

/-- Witness for C1 at a concrete run: seven index-1 tokens give one chunk. -/
theorem claim_C1_witness :
    (tokens_decoder constCodec toksOne7).length = (finalState constCodec toksOne7).count / 7 ∧
    (7 ≤ (finalState constCodec toksOne7).count →
      (tokens_decoder constCodec toksOne7).length =
        1 + max 0 ((finalState constCodec toksOne7).count / 7 - 1)) ∧
    ((finalState constCodec toksOne7).count = 6 → (tokens_decoder constCodec toksOne7).length = 0) ∧
    ((finalState constCodec toksOne7).count = 7 → (tokens_decoder constCodec toksOne7).length = 1) :=
  claim_C1 constCodec toksOne7 (by decide)

/-- Claim C3 (amended): after the first chunk, subsequent codec invocations
happen exactly at multiples of 7 accepted tokens (hence `count ≥ 14`), with
the most recent `min count 28` indices; the window is 28 indices only once
`count ≥ 28`. -/
theorem claim_C3_amended (codec : Codec) (toks : List String) :
    ∀ c ∈ decoderCalls codec toks, c.subsequent = true →
      c.count % 7 = 0 ∧ 14 ≤ c.count ∧ c.window.length = min c.count 28 ∧
      (28 ≤ c.count → c.window.length = 28) := by
  intro c hc hsub
  have h := runAux_invariant codec toks initState rfl
    (by simp [initState]) (by intro x hx; simp [initState] at hx)
  have hcall := (h.2.2.2 c hc).2.2.1 hsub
  refine ⟨hcall.1, hcall.2.1, hcall.2.2, ?_⟩
  intro h28
  rw [hcall.2.2]
  omega

/-- Counterexample to C3 as stated: in a 14-token run the scheduler makes a
successful subsequent invocation at `count = 14` with a window of only 14
indices, and two chunks are emitted. -/
theorem claim_C3_cex :
    (decoderCalls constCodec toksOne14).map
        (fun c => (c.count, c.window.length, c.subsequent, c.success)) =
      [(7, 7, false, true), (14, 14, true, true)] ∧
    (tokens_decoder constCodec toksOne14).length = 2 := by
  constructor
  · decide
  · decide

/-- Witness for the amended C3 at the concrete subsequent call of the
14-token run. -/
theorem claim_C3_witness :
    (14 : Nat) % 7 = 0 ∧ 14 ≤ 14 ∧
    (List.replicate 14 (1 : Int)).length = min 14 28 ∧
    (28 ≤ 14 → (List.replicate 14 (1 : Int)).length = 28) :=
  claim_C3_amended constCodec toksOne14
    ⟨List.replicate 14 1, 14, true, true⟩ (by decide) (by decide)

/-- Claim C7 (amended): when the codec returns at least 4096 samples on every
window actually invoked, every emitted chunk has exactly 2048 samples and the
total number of emitted bytes is a multiple of
`2 × channels × samples_per_chunk = 4096`. -/
theorem claim_C7_amended (codec : Codec)
    (hS : ∀ c0 c1 c2 : List Int, 4096 ≤ (codec.decode c0 c1 c2).length)
    (toks : List String) :
    (∀ ch ∈ tokens_decoder codec toks, ch.length = 2048) ∧
    ((tokens_decoder codec toks).map (fun ch => 2 * ch.length)).sum % (2 * 1 * 2048) = 0 := by
  have hlen : ∀ ch ∈ tokens_decoder codec toks, ch.length = 2048 := by
    intro ch hch
    obtain ⟨w, rfl⟩ := runAux_chunk_shape codec toks initState ch hch
    have hw := hS (codes0 w) (codes1 w) (codes2 w)
    simp only [sliceChunk, List.length_take, List.length_drop]
    omega
  refine ⟨hlen, ?_⟩
  rw [sum_twice_len hlen]
  simp [Nat.mul_mod_right]

/-- Witness for the amended C7 at a concrete codec and run. -/
theorem claim_C7_witness :
    (∀ ch ∈ tokens_decoder constCodec toksOne14, ch.length = 2048) ∧
    ((tokens_decoder constCodec toksOne14).map (fun ch => 2 * ch.length)).sum % (2 * 1 * 2048) = 0 :=
  claim_C7_amended constCodec
    (fun c0 c1 c2 => by rw [show (constCodec.decode c0 c1 c2).length = 8192
      from List.length_replicate 8192 0]; omega) toksOne14

/-- Counterexample to C7 as stated: a codec satisfying the spec's stated
contract (`S ≥ 4096` for `F ≥ 4`, `S ≥ 2048` for `F = 1`) under which the
emitted chunks do not all have the same sample count — the 1-frame prime
chunk is empty. -/
theorem claim_C7_cex :
    ∃ codec, codecContract codec ∧
      ∃ a b rest, tokens_decoder codec toksOne28 = a :: b :: rest ∧
        a.length ≠ b.length := by
  refine ⟨lenCodec, ?_, sliceChunk lenCodec (List.replicate 7 1),
    sliceChunk lenCodec (List.replicate 14 1),
    [sliceChunk lenCodec (List.replicate 21 1), sliceChunk lenCodec (List.replicate 28 1)],
    ?_, ?_⟩
  · intro c0 c1 c2
    constructor
    · intro h4
      simp only [lenCodec, List.length_replicate]
      omega
    · intro h1
      simp only [lenCodec, List.length_replicate]
      omega
  · rfl
  · have hcodes : ∀ n : Nat, (codes0 (List.replicate n (1:Int))).length = n / 7 := by
      intro n
      simp only [codes0, List.length_map, List.length_range, numFrames, List.length_replicate]
    have ha : (sliceChunk lenCodec (List.replicate 7 (1:Int))).length = 0 := by
      simp only [sliceChunk, List.length_take, List.length_drop, lenCodec,
        List.length_replicate, hcodes]
      omega
    have hb : (sliceChunk lenCodec (List.replicate 14 (1:Int))).length = 2048 := by
      simp only [sliceChunk, List.length_take, List.length_drop, lenCodec,
        List.length_replicate, hcodes]
      omega
    omega

/-- Claim C8: removing every structurally malformed token string from a
stream leaves the emitted chunk sequence unchanged; equivalently, malformed
tokens may be interleaved anywhere without affecting the audio. -/
theorem claim_C8 (codec : Codec) (toks : List String) :
    tokens_decoder codec toks =
      tokens_decoder codec (toks.filter (fun t => !structurallyRejected t)) := by
  suffices h : ∀ st, runAux codec st toks =
      runAux codec st (toks.filter (fun t => !structurallyRejected t)) by
    simp only [tokens_decoder, h initState]
  induction toks with
  | nil => intro st; rfl
  | cons t ts ih =>
    intro st
    have hsplit : runAux codec st (t :: ts) =
        ((runAux codec (stepToken codec st t).1 ts).1,
         (stepToken codec st t).2.1 ++ (runAux codec (stepToken codec st t).1 ts).2.1,
         (stepToken codec st t).2.2 ++ (runAux codec (stepToken codec st t).1 ts).2.2) := rfl
    by_cases hrej : structurallyRejected t
    · rw [List.filter_cons_of_neg (by simp [hrej]), hsplit, step_rejected hrej]
      simpa using ih st
    · rw [List.filter_cons_of_pos (by simp [hrej])]
      have hsplit2 : runAux codec st (t :: ts.filter (fun u => !structurallyRejected u)) =
          ((runAux codec (stepToken codec st t).1 (ts.filter (fun u => !structurallyRejected u))).1,
           (stepToken codec st t).2.1 ++
             (runAux codec (stepToken codec st t).1 (ts.filter (fun u => !structurallyRejected u))).2.1,
           (stepToken codec st t).2.2 ++
             (runAux codec (stepToken codec st t).1 (ts.filter (fun u => !structurallyRejected u))).2.2) := rfl
      rw [hsplit, hsplit2, ih (stepToken codec st t).1]

/-- Claim C10: after each processed token the buffer length equals `count`
and all buffered indices are positive; hence every window passed to the codec
invoker contains only indices at least 1, every tensor element is
non-negative (the `< 0` checks can never fire), and a rejection can only come
from an element exceeding 4096. -/
theorem claim_C10 (codec : Codec) (toks : List String) :
    (finalState codec toks).buffer.length = (finalState codec toks).count ∧
    (∀ x ∈ (finalState codec toks).buffer, 0 < x) ∧
    ∀ c ∈ decoderCalls codec toks,
      (∀ x ∈ c.window, 1 ≤ x) ∧
      (∀ x ∈ codes0 c.window ++ codes1 c.window ++ codes2 c.window, 0 ≤ x) ∧
      (c.success = false →
        ∃ x ∈ codes0 c.window ++ codes1 c.window ++ codes2 c.window, 4096 < x) := by
  have h := runAux_invariant codec toks initState rfl
    (by simp [initState]) (by intro x hx; simp [initState] at hx)
  refine ⟨h.1, h.2.2.1, ?_⟩
  intro c hc
  have hcall := h.2.2.2 c hc
  refine ⟨fun x hx => hcall.1 x hx, ?_, hcall.2.2.2.2⟩
  intro x hx
  simp only [List.mem_append] at hx
  rcases hx with (hx | hx) | hx
  · have := hcall.1 x (codes0_sub x hx)
    omega
  · have := hcall.1 x (codes1_sub x hx)
    omega
  · have := hcall.1 x (codes2_sub x hx)
    omega

/-- Witness for C10 at a concrete run containing an out-of-range index. -/
theorem claim_C10_witness :
    (finalState constCodec toksMid5000).buffer.length = (finalState constCodec toksMid5000).count ∧
    (∀ x ∈ (finalState constCodec toksMid5000).buffer, 0 < x) ∧
    ∀ c ∈ decoderCalls constCodec toksMid5000,
      (∀ x ∈ c.window, 1 ≤ x) ∧
      (∀ x ∈ codes0 c.window ++ codes1 c.window ++ codes2 c.window, 0 ≤ x) ∧
      (c.success = false →
        ∃ x ∈ codes0 c.window ++ codes1 c.window ++ codes2 c.window, 4096 < x) :=
  claim_C10 constCodec toksMid5000

/-- Rejection by the codec invoker does not depend on the codec: the length
and range checks precede any decoder call. -/
lemma convert_isNone_indep (c1 c2 : Codec) (mf : List Int) (cnt : Nat) :
    (convert_to_audio c1 mf cnt).isNone = (convert_to_audio c2 mf cnt).isNone := by
  unfold convert_to_audio
  by_cases h7 : mf.length < 7
  · rw [if_pos h7, if_pos h7]
  · rw [if_neg h7, if_neg h7]
    by_cases hb : (rangeBad (codes0 mf) || rangeBad (codes1 mf) || rangeBad (codes2 mf)) = true
    · rw [if_pos hb, if_pos hb]
    · rw [if_neg hb, if_neg hb]
      rfl

/-- One scheduler step depends on the codec only through chunk contents: the
state, the number of yielded chunks and the call record are the same for any
two codecs. -/
lemma stepToken_codec_indep (c1 c2 : Codec) (st : DecState) (t : String) :
    (stepToken c1 st t).1 = (stepToken c2 st t).1 ∧
    (stepToken c1 st t).2.1.length = (stepToken c2 st t).2.1.length ∧
    (stepToken c1 st t).2.2 = (stepToken c2 st t).2.2 := by
  cases h : turn_token_into_id t st.count with
  | none =>
    simp only [stepToken, h]
    refine ⟨?_, ?_, ?_⟩ <;> trivial
  | some token =>
    simp only [stepToken, h]
    by_cases h0 : token ≤ 0
    · rw [if_pos h0, if_pos h0]
      refine ⟨?_, ?_, ?_⟩ <;> trivial
    · rw [if_neg h0, if_neg h0]
      by_cases hc1 : (!st.first_chunk_sent && decide (MIN_FRAMES_FIRST ≤ st.count + 1)) = true
      · rw [if_pos hc1, if_pos hc1]
        have hind := convert_isNone_indep c1 c2
          (lastN (st.buffer ++ [token]) MIN_FRAMES_FIRST) (st.count + 1)
        cases hcv1 : convert_to_audio c1 (lastN (st.buffer ++ [token]) MIN_FRAMES_FIRST)
            (st.count + 1) with
        | some a1 =>
          cases hcv2 : convert_to_audio c2 (lastN (st.buffer ++ [token]) MIN_FRAMES_FIRST)
              (st.count + 1) with
          | some a2 => refine ⟨?_, ?_, ?_⟩ <;> trivial
          | none =>
            rw [hcv1, hcv2] at hind
            simp at hind
        | none =>
          cases hcv2 : convert_to_audio c2 (lastN (st.buffer ++ [token]) MIN_FRAMES_FIRST)
              (st.count + 1) with
          | some a2 =>
            rw [hcv1, hcv2] at hind
            simp at hind
          | none => refine ⟨?_, ?_, ?_⟩ <;> trivial
      · rw [if_neg hc1, if_neg hc1]
        by_cases hc2 : (st.first_chunk_sent && decide ((st.count + 1) % PROCESS_EVERY = 0)) = true
        · rw [if_pos hc2, if_pos hc2]
          have hind := convert_isNone_indep c1 c2
            (lastN (st.buffer ++ [token]) MIN_FRAMES_SUBSEQ) (st.count + 1)
          cases hcv1 : convert_to_audio c1 (lastN (st.buffer ++ [token]) MIN_FRAMES_SUBSEQ)
              (st.count + 1) with
          | some a1 =>
            cases hcv2 : convert_to_audio c2 (lastN (st.buffer ++ [token]) MIN_FRAMES_SUBSEQ)
                (st.count + 1) with
            | some a2 => refine ⟨?_, ?_, ?_⟩ <;> trivial
            | none =>
              rw [hcv1, hcv2] at hind
              simp at hind
          | none =>
            cases hcv2 : convert_to_audio c2 (lastN (st.buffer ++ [token]) MIN_FRAMES_SUBSEQ)
                (st.count + 1) with
            | some a2 =>
              rw [hcv1, hcv2] at hind
              simp at hind
            | none => refine ⟨?_, ?_, ?_⟩ <;> trivial
        · rw [if_neg hc2, if_neg hc2]
          refine ⟨?_, ?_, ?_⟩ <;> trivial

/-- A whole run depends on the codec only through chunk contents. -/
lemma runAux_codec_indep (c1 c2 : Codec) : ∀ (toks : List String) (st : DecState),
    (runAux c1 st toks).1 = (runAux c2 st toks).1 ∧
    (runAux c1 st toks).2.1.length = (runAux c2 st toks).2.1.length ∧
    (runAux c1 st toks).2.2 = (runAux c2 st toks).2.2
  | [], st => ⟨rfl, rfl, rfl⟩
  | t :: ts, st => by
    obtain ⟨hs, hl, hc⟩ := stepToken_codec_indep c1 c2 st t
    obtain ⟨hs2, hl2, hc2⟩ := runAux_codec_indep c1 c2 ts (stepToken c1 st t).1
    refine ⟨?_, ?_, ?_⟩
    · show (runAux c1 (stepToken c1 st t).1 ts).1 = (runAux c2 (stepToken c2 st t).1 ts).1
      rw [← hs]
      exact hs2
    · show ((stepToken c1 st t).2.1 ++ (runAux c1 (stepToken c1 st t).1 ts).2.1).length =
        ((stepToken c2 st t).2.1 ++ (runAux c2 (stepToken c2 st t).1 ts).2.1).length
      rw [List.length_append, List.length_append, hl, ← hs, hl2]
    · show (stepToken c1 st t).2.2 ++ (runAux c1 (stepToken c1 st t).1 ts).2.2 =
        (stepToken c2 st t).2.2 ++ (runAux c2 (stepToken c2 st t).1 ts).2.2
      rw [hc, ← hs, hc2]

/-- Counterexample to C2 as stated: each of the seven listed tokens parses to
codebook index 0 at its position, but the scheduler discards non-positive
indices, so the run emits no chunk at all (here under a codec that always
returns 8192 samples).  Moreover even with the index-1 analogues the chunk
need not be 4096 bytes: under `lenCodec`, which meets the spec's stated
codec contract (see the C7 counterexample), the single emitted chunk has 0
samples, because the 1-frame waveform has only 2048 samples and the emitted
slice is `[2048:4096]`. -/
theorem claim_C2_cex :
    turn_token_into_id "<custom_token_10>" 0 = some 0 ∧
    turn_token_into_id "<custom_token_4106>" 1 = some 0 ∧
    turn_token_into_id "<custom_token_8202>" 2 = some 0 ∧
    turn_token_into_id "<custom_token_12298>" 3 = some 0 ∧
    turn_token_into_id "<custom_token_16394>" 4 = some 0 ∧
    turn_token_into_id "<custom_token_20490>" 5 = some 0 ∧
    turn_token_into_id "<custom_token_24586>" 6 = some 0 ∧
    tokens_decoder constCodec toksZero7 = [] ∧
    (tokens_decoder lenCodec toksOne7).map List.length = [0] := by
  refine ⟨by decide, by decide, by decide, by decide, by decide, by decide, by decide,
    by decide, by decide⟩

/-- Claim C2 (amended): seven tokens decoding to codebook index 1 at
positions 0..6 yield exactly one chunk, and that chunk holds 2048 samples
(4096 bytes) when the codec returns at least 4096 samples on the 1-frame
window. -/
theorem claim_C2_amended (codec : Codec)
    (hS : ∀ c0 c1 c2 : List Int, 4096 ≤ (codec.decode c0 c1 c2).length) :
    ∃ ch, tokens_decoder codec toksOne7 = [ch] ∧ 2 * ch.length = 4096 := by
  have hlen1 : (tokens_decoder codec toksOne7).length = 1 := by
    have h := (runAux_codec_indep codec constCodec toksOne7 initState).2.1
    show (runAux codec initState toksOne7).2.1.length = 1
    rw [h]
    decide
  obtain ⟨ch, hch⟩ : ∃ ch, tokens_decoder codec toksOne7 = [ch] := by
    cases hl : tokens_decoder codec toksOne7 with
    | nil =>
      rw [hl] at hlen1
      simp at hlen1
    | cons a l =>
      rw [hl] at hlen1
      simp at hlen1
      exact ⟨a, by rw [hlen1]⟩
  refine ⟨ch, hch, ?_⟩
  obtain ⟨w, rfl⟩ := runAux_chunk_shape codec toksOne7 initState ch
    (by rw [show (runAux codec initState toksOne7).2.1 = tokens_decoder codec toksOne7
        from rfl, hch]; simp)
  have hw := hS (codes0 w) (codes1 w) (codes2 w)
  simp only [sliceChunk, List.length_take, List.length_drop]
  omega

/-- Witness for the amended C2 at a concrete codec. -/
theorem claim_C2_witness :
    ∃ ch, tokens_decoder constCodec toksOne7 = [ch] ∧ 2 * ch.length = 4096 :=
  claim_C2_amended constCodec
    (fun c0 c1 c2 => by rw [show (constCodec.decode c0 c1 c2).length = 8192
      from List.length_replicate 8192 0]; omega)

/-- Claim C6: for windows of at least 7 indices the codec invoker rejects
exactly when some element placed into the three codebook tensors is out of
range, and in the spec's mid-window scenario (position 8 decoding to 5000)
the run makes a successful call at count 7 and a rejected call at count 14,
emitting exactly one chunk — for every codec, since rejection precedes any
decoder call. -/
theorem claim_C6 :
    (∀ (codec : Codec) (mf : List Int) (cnt : Nat), 7 ≤ mf.length →
      (convert_to_audio codec mf cnt = none ↔
        ∃ x ∈ codes0 mf ++ codes1 mf ++ codes2 mf, x < 0 ∨ 4096 < x)) ∧
    (∀ codec : Codec,
      (decoderCalls codec toksMid5000).map (fun c => (c.count, c.success)) =
        [(7, true), (14, false)] ∧
      (tokens_decoder codec toksMid5000).length = 1) := by
  constructor
  · intro codec mf cnt h7
    exact convert_eq_none_iff codec cnt h7
  · intro codec
    constructor
    · show (runAux codec initState toksMid5000).2.2.map (fun c => (c.count, c.success)) = _
      rw [(runAux_codec_indep codec constCodec toksMid5000 initState).2.2]
      decide
    · show (runAux codec initState toksMid5000).2.1.length = 1
      rw [(runAux_codec_indep codec constCodec toksMid5000 initState).2.1]
      decide

/-- Witness for C6: a concrete window whose element 5000 forces rejection. -/
theorem claim_C6_witness :
    convert_to_audio constCodec [1, 1, 1, 1, 1, 1, 5000] 7 = none :=
  (claim_C6.1 constCodec [1, 1, 1, 1, 1, 1, 5000] 7 (by decide)).mpr (by decide)

lemma startsList_eq_true {pat s : List Char} :
    startsList pat s = true ↔ s.take pat.length = pat := by
  simp [startsList]

lemma startsList_decomp {pat s : List Char} (h : startsList pat s = true) :
    s = pat ++ s.drop pat.length := by
  conv_lhs => rw [← List.take_append_drop pat.length s]
  rw [startsList_eq_true.mp h]

lemma startsList_of_append (pat X : List Char) : startsList pat (pat ++ X) = true := by
  rw [startsList_eq_true]
  exact List.take_left pat X

lemma head_lt_of_startsList {s : List Char} (h : startsList CUSTOM_TOKEN_PRE s = true) :
    '<' ∈ s := by
  rw [startsList_decomp h]
  simp [CUSTOM_TOKEN_PRE]

lemma no_match_after {u ds : List Char} (hds : ∀ c ∈ ds, Char.isDigit c = true) :
    ∀ j, u.length < j →
      startsList CUSTOM_TOKEN_PRE ((u ++ CUSTOM_TOKEN_PRE ++ ds ++ ['>']).drop j) = false := by
  intro j hj
  by_contra hcon
  rw [Bool.not_eq_false] at hcon
  have hmem : '<' ∈ (u ++ CUSTOM_TOKEN_PRE ++ ds ++ ['>']).drop j :=
    head_lt_of_startsList hcon
  have hre : u ++ CUSTOM_TOKEN_PRE ++ ds ++ ['>'] =
      (u ++ ['<']) ++ (CUSTOM_TOKEN_PRE.tail ++ ds ++ ['>']) := by
    simp [CUSTOM_TOKEN_PRE]
  rw [hre] at hmem
  obtain ⟨k, hk⟩ : ∃ k, j = (u ++ ['<']).length + k := by
    refine ⟨j - (u.length + 1), ?_⟩
    simp
    omega
  rw [hk, List.drop_append] at hmem
  have hsub : '<' ∈ CUSTOM_TOKEN_PRE.tail ++ ds ++ ['>'] :=
    List.drop_subset _ _ hmem
  rcases List.mem_append.mp hsub with hsub | hsub
  · rcases List.mem_append.mp hsub with hsub | hsub
    · exact absurd hsub (by decide)
    · exact absurd (hds '<' hsub) (by decide)
  · exact absurd hsub (by decide)

lemma getLast?_filter_range (p : Nat → Bool) : ∀ (n k : Nat), k ≤ n → p k = true →
    (∀ j, k < j → j ≤ n → p j = false) →
    ((List.range (n + 1)).filter p).getLast? = some k
  | 0, k => by
    intro hk hp hafter
    have hk0 : k = 0 := by omega
    subst hk0
    simp [List.range_succ, hp]
  | n + 1, k => by
    intro hk hp hafter
    rw [List.range_succ, List.filter_append]
    by_cases hkn : k = n + 1
    · subst hkn
      rw [show List.filter p [n + 1] = [n + 1] by simp [hp]]
      exact List.getLast?_concat _
    · have hpn : p (n + 1) = false := hafter (n + 1) (by omega) (by omega)
      rw [show List.filter p [n + 1] = [] by simp [hpn], List.append_nil]
      exact getLast?_filter_range p n k (by omega) hp
        (fun j h1 h2 => hafter j h1 (by omega))

lemma rfindPre_wellFormed {u ds : List Char} (hds : ∀ c ∈ ds, Char.isDigit c = true) :
    rfindPre CUSTOM_TOKEN_PRE (u ++ CUSTOM_TOKEN_PRE ++ ds ++ ['>']) = some u.length := by
  unfold rfindPre
  apply getLast?_filter_range
  · simp
  · have hd : (u ++ CUSTOM_TOKEN_PRE ++ ds ++ ['>']).drop u.length =
        CUSTOM_TOKEN_PRE ++ (ds ++ ['>']) := by
      rw [show u ++ CUSTOM_TOKEN_PRE ++ ds ++ ['>'] =
        u ++ (CUSTOM_TOKEN_PRE ++ (ds ++ ['>'])) by simp]
      exact List.drop_left u _
    rw [hd]
    exact startsList_of_append _ _
  · intro j hj h2
    exact no_match_after hds j hj

lemma parseTokenPy_some (t : List Char) (mod : Nat) (i : Nat)
    (h : rfindPre CUSTOM_TOKEN_PRE t = some i) :
    parseTokenPy t mod =
      if startsList CUSTOM_TOKEN_PRE (t.drop i)
          && ((t.drop i).getLast? == some '>') then
        if (!((t.drop i).drop CUSTOM_TOKEN_PRE.length).dropLast.isEmpty)
            && ((t.drop i).drop CUSTOM_TOKEN_PRE.length).dropLast.all pyIsDigitChar then
          if ((t.drop i).drop CUSTOM_TOKEN_PRE.length).dropLast.all pyIsDecimal then
            PyOutcome.ret (some ((intFromDecimalDigits
                (((t.drop i).drop CUSTOM_TOKEN_PRE.length).dropLast) : Int)
              - 10 - (mod : Int) * 4096))
          else PyOutcome.valueError
        else PyOutcome.ret none
      else PyOutcome.ret none := by
  unfold parseTokenPy
  rw [h]

lemma ascii_digit_toNat {c : Char} (h : Char.isDigit c = true) :
    48 ≤ c.toNat ∧ c.toNat ≤ 57 := by
  simp [Char.isDigit] at h
  exact h

lemma pyIsDecimal_of_ascii {c : Char} (h : Char.isDigit c = true) :
    pyIsDecimal c = true := by
  obtain ⟨h1, h2⟩ := ascii_digit_toNat h
  unfold pyIsDecimal
  rw [List.any_eq_true]
  refine ⟨48, by decide, ?_⟩
  rw [Bool.and_eq_true]
  refine ⟨?_, ?_⟩ <;> rw [decide_eq_true_eq] <;> omega

lemma pyDecimalVal_of_ascii {c : Char} (h : Char.isDigit c = true) :
    pyDecimalVal c = c.toNat - 48 := by
  obtain ⟨h1, h2⟩ := ascii_digit_toNat h
  have hfind : decimalBases.find?
      (fun b => decide (b ≤ c.toNat) && decide (c.toNat ≤ b + 9)) = some 48 := by
    rw [show decimalBases = 48 :: decimalBases.tail from rfl]
    rw [List.find?_cons_of_pos]
    rw [Bool.and_eq_true]
    refine ⟨?_, ?_⟩ <;> rw [decide_eq_true_eq] <;> omega
  unfold pyDecimalVal
  rw [hfind]

lemma pyIsDigitChar_of_ascii {c : Char} (h : Char.isDigit c = true) :
    pyIsDigitChar c = true := by
  unfold pyIsDigitChar
  rw [pyIsDecimal_of_ascii h]
  rfl

lemma intFromDecimal_of_ascii {ds : List Char}
    (hdig : ∀ c ∈ ds, Char.isDigit c = true) :
    intFromDecimalDigits ds = natFromDigits ds := by
  suffices h : ∀ (l : List Char), (∀ c ∈ l, Char.isDigit c = true) → ∀ acc : Nat,
      l.foldl (fun n c => 10 * n + pyDecimalVal c) acc =
      l.foldl (fun n c => 10 * n + (c.toNat - 48)) acc from h ds hdig 0
  intro l
  induction l with
  | nil =>
    intro _ acc
    rfl
  | cons c cs ih =>
    intro hdig2 acc
    simp only [List.foldl_cons]
    rw [pyDecimalVal_of_ascii (hdig2 c (List.mem_cons_self c cs))]
    exact ih (fun x hx => hdig2 x (List.mem_cons_of_mem c hx)) _

/-- On a well-formed ASCII-digit token the raising path is not taken and the
parser computes `N - 10 - mod * 4096`. -/
lemma parseTokenPy_mkToken {ds : List Char} (hne : ds ≠ [])
    (hdig : ∀ c ∈ ds, Char.isDigit c = true) (mod : Nat) :
    parseTokenPy (CUSTOM_TOKEN_PRE ++ ds ++ ['>']) mod =
      PyOutcome.ret (some ((natFromDigits ds : Int) - 10 - (mod : Int) * 4096)) := by
  have hr : rfindPre CUSTOM_TOKEN_PRE (CUSTOM_TOKEN_PRE ++ ds ++ ['>']) = some 0 := by
    have h := rfindPre_wellFormed (u := []) hdig
    simpa using h
  rw [parseTokenPy_some _ mod 0 hr, List.drop_zero]
  rw [show CUSTOM_TOKEN_PRE ++ ds ++ ['>'] = CUSTOM_TOKEN_PRE ++ (ds ++ ['>']) by simp]
  have hlast : (CUSTOM_TOKEN_PRE ++ (ds ++ ['>'])).getLast? = some '>' := by
    rw [show CUSTOM_TOKEN_PRE ++ (ds ++ ['>']) = (CUSTOM_TOKEN_PRE ++ ds) ++ ['>'] by simp]
    exact List.getLast?_concat _
  rw [if_pos (by rw [startsList_of_append, hlast]; rfl)]
  have hdigits : (CUSTOM_TOKEN_PRE ++ (ds ++ ['>'])).drop CUSTOM_TOKEN_PRE.length =
      ds ++ ['>'] := List.drop_left _ _
  rw [hdigits, List.dropLast_concat]
  have hc1 : (!ds.isEmpty && ds.all pyIsDigitChar) = true := by
    rw [Bool.and_eq_true]
    exact ⟨by simp [hne],
      List.all_eq_true.mpr (fun c hc => pyIsDigitChar_of_ascii (hdig c hc))⟩
  rw [if_pos hc1]
  have hc2 : ds.all pyIsDecimal = true :=
    List.all_eq_true.mpr (fun c hc => pyIsDecimal_of_ascii (hdig c hc))
  rw [if_pos hc2, intFromDecimal_of_ascii hdig]

lemma parseToken_mkToken {ds : List Char} (hne : ds ≠ [])
    (hdig : ∀ c ∈ ds, Char.isDigit c = true) (mod : Nat) :
    parseToken (CUSTOM_TOKEN_PRE ++ ds ++ ['>']) mod =
      some ((natFromDigits ds : Int) - 10 - (mod : Int) * 4096) := by
  unfold parseToken
  rw [parseTokenPy_mkToken hne hdig mod]

/-- Claim C5 (code bug): the code contradicts its own docstring (Returns
Optional int, None if the token is invalid) and the spec's never-fails-
fatally sentence: the token text with superscript two passes
`digits.isdigit()` on line 57, but `int(digits)` on line 62 raises
`ValueError`, which propagates out of `turn_token_into_id` and aborts the
request.  The theorem evaluates the faithful model at that failing input,
and at two margins of the silent-rejection characterisation: a Bengali
decimal digit parses with N = 4 (value -6 at slot 0), and a trailing form
feed is stripped so the token is accepted. -/
theorem claim_C5 :
    turn_token_into_id_py "<custom_token_\u00b2>" 0 = PyOutcome.valueError ∧
    turn_token_into_id_py "<custom_token_\u09ea>" 0 = PyOutcome.ret (some (-6)) ∧
    turn_token_into_id_py "<custom_token_11>\x0c" 0 = PyOutcome.ret (some 1) ∧
    turn_token_into_id "<custom_token_\u00b2>" 0 = none := by
  refine ⟨by decide, by decide, by decide, by decide⟩

/-- A well-formed token string `<custom_token_N>` built from a digit run. -/
def mkToken (ds : List Char) : String :=
  String.mk (CUSTOM_TOKEN_PRE ++ ds ++ ['>'])

lemma pyStrip_token (ds : List Char) :
    pyStrip (CUSTOM_TOKEN_PRE ++ ds ++ ['>']) = CUSTOM_TOKEN_PRE ++ ds ++ ['>'] := by
  unfold pyStrip
  have h1 : (CUSTOM_TOKEN_PRE ++ ds ++ ['>']).dropWhile pyWhitespaceChar =
      CUSTOM_TOKEN_PRE ++ ds ++ ['>'] := by
    rw [show CUSTOM_TOKEN_PRE ++ ds ++ ['>'] =
      '<' :: (CUSTOM_TOKEN_PRE.tail ++ ds ++ ['>']) by simp [CUSTOM_TOKEN_PRE]]
    rw [List.dropWhile_cons, show pyWhitespaceChar '<' = false from by decide]
    simp
  rw [h1]
  have h2 : (CUSTOM_TOKEN_PRE ++ ds ++ ['>']).reverse =
      '>' :: (CUSTOM_TOKEN_PRE ++ ds).reverse := by
    simp
  rw [h2, List.dropWhile_cons, show pyWhitespaceChar '>' = false from by decide]
  simp

/-- Claim C4 (amended): for every position `p` and every well-formed token
`<custom_token_N>` with `10 + (p mod 7) * 4096 < N ≤ 10 + (p mod 7) * 4096
+ 4096`, the parser returns a value in `(0, 4096]`. -/
theorem claim_C4_amended (p : Nat) (ds : List Char) (hne : ds ≠ [])
    (hdig : ∀ c ∈ ds, Char.isDigit c = true)
    (hlo : 10 + (p % 7) * 4096 < natFromDigits ds)
    (hhi : natFromDigits ds ≤ 10 + (p % 7) * 4096 + 4096) :
    ∃ v, turn_token_into_id (mkToken ds) p = some v ∧ 0 < v ∧ v ≤ 4096 := by
  refine ⟨(natFromDigits ds : Int) - 10 - ((p % 7 : Nat) : Int) * 4096, ?_, ?_, ?_⟩
  · show parseToken (pyStrip (String.toList (mkToken ds))) (p % 7) = _
    rw [show String.toList (mkToken ds) = CUSTOM_TOKEN_PRE ++ ds ++ ['>'] from rfl]
    rw [pyStrip_token]
    exact parseToken_mkToken hne hdig (p % 7)
  · omega
  · omega

/-- Witness for the amended C4: `<custom_token_11>` at position 0 parses to
index 1 ∈ (0, 4096]. -/
theorem claim_C4_witness :
    ∃ v, turn_token_into_id (mkToken ['1', '1']) 0 = some v ∧ 0 < v ∧ v ≤ 4096 :=
  claim_C4_amended 0 ['1', '1'] (by decide) (by decide) (by decide) (by decide)

/-- Counterexample to C4 as stated: `<custom_token_16395>` at position 0 has
`N = 16395 > 10 + 4 * 4096 + 0 * 4096`, yet the parser returns 16385, which
is not in `(0, 4096]`. -/
theorem claim_C4_cex :
    turn_token_into_id "<custom_token_16395>" 0 = some 16385 ∧
    (10 + 4 * 4096 + (0 % 7) * 4096 : Nat) < 16395 ∧
    ¬((0 : Int) < 16385 ∧ (16385 : Int) ≤ 4096) := by
  refine ⟨by decide, by decide, by decide⟩

lemma cached_eq_pure (cache : Cache) (s : String) (k : Nat)
    (hcoh : CacheCoherent cache) :
    (turn_token_into_id_cached cache s k).1 = turn_token_into_id s k ∧
    CacheCoherent (turn_token_into_id_cached cache s k).2 := by
  unfold turn_token_into_id_cached turn_token_into_id
  cases hf : cacheFind cache (pyStrip s.toList, k % 7) with
  | some v =>
    constructor
    · show v = parseToken (pyStrip s.toList) (k % 7)
      unfold cacheFind at hf
      cases hfind : cache.find? (fun e => decide (e.1 = (pyStrip s.toList, k % 7))) with
      | none =>
        rw [hfind] at hf
        simp at hf
      | some e =>
        rw [hfind] at hf
        simp at hf
        have hmem := List.mem_of_find?_eq_some hfind
        have hpred := List.find?_some hfind
        rw [decide_eq_true_eq] at hpred
        have hco := hcoh e hmem
        rw [← hf, hco, hpred]
    · exact hcoh
  | none =>
    cases hp : parseTokenPy (pyStrip s.toList) (k % 7) with
    | valueError =>
      refine ⟨?_, hcoh⟩
      show (none : Option Int) = parseToken (pyStrip s.toList) (k % 7)
      unfold parseToken
      rw [hp]
    | ret v =>
      have hv : parseToken (pyStrip s.toList) (k % 7) = v := by
        unfold parseToken
        rw [hp]
      show ((if cache.length < MAX_CACHE_SIZE
          then (v, ((pyStrip s.toList, k % 7), v) :: cache)
          else (v, cache)).1 = parseToken (pyStrip s.toList) (k % 7)) ∧
        CacheCoherent (if cache.length < MAX_CACHE_SIZE
          then (v, ((pyStrip s.toList, k % 7), v) :: cache)
          else (v, cache)).2
      by_cases hlen : cache.length < MAX_CACHE_SIZE
      · rw [if_pos hlen]
        refine ⟨hv.symm, ?_⟩
        intro e he
        rcases List.mem_cons.mp he with rfl | he
        · exact hv.symm
        · exact hcoh e he
      · rw [if_neg hlen]
        exact ⟨hv.symm, hcoh⟩

/-- Claim C9: under cache coherence (which every reachable cache satisfies,
full or not), two parses of the same string at positions with equal slot
return the same result, which is the pure parse outcome, and coherence is
preserved. -/
theorem claim_C9 (cache : Cache) (s : String) (i j : Nat)
    (hcoh : CacheCoherent cache) (hij : i % 7 = j % 7) :
    (turn_token_into_id_cached cache s i).1 = (turn_token_into_id_cached cache s j).1 ∧
    (turn_token_into_id_cached cache s i).1 = turn_token_into_id s i ∧
    CacheCoherent (turn_token_into_id_cached cache s i).2 := by
  have hi := cached_eq_pure cache s i hcoh
  have hj := cached_eq_pure cache s j hcoh
  refine ⟨?_, hi.1, hi.2⟩
  rw [hi.1, hj.1, turn_token_into_id_mod s i, turn_token_into_id_mod s j, hij]

/-- Witness for C9: an empty cache and positions 0 and 7 (equal slot). -/
theorem claim_C9_witness :
    (turn_token_into_id_cached [] "<custom_token_11>" 0).1 =
      (turn_token_into_id_cached [] "<custom_token_11>" 7).1 ∧
    (turn_token_into_id_cached [] "<custom_token_11>" 0).1 =
      turn_token_into_id "<custom_token_11>" 0 ∧
    CacheCoherent (turn_token_into_id_cached [] "<custom_token_11>" 0).2 :=
  claim_C9 [] "<custom_token_11>" 0 7
    (fun e he => absurd he (List.not_mem_nil e)) (by decide)

end OrpheusTTS
